import Mathlib

/-!
Verification of the `containers` CLI orchestrator (docker.go, bw_backup.go,
keychain/keychain.go) against its natural-language specification.

Go strings are modelled as Lean `String`; Go byte-level operations are stated
on `String.data` (the repository only manipulates ASCII, where Go's byte
indexing and Lean's character lists agree).  Go maps are modelled as
association lists carrying one concrete iteration order; where Go's randomized
map-iteration order matters, the order is an explicit parameter and claims
quantify over permutations.
-/

/-- Extensionality for strings via their character data. -/
theorem strExt {a b : String} (h : a.data = b.data) : a = b := by
  cases a; cases b; exact congrArg String.mk h

/-- Character data of an appended string. -/
theorem strDataApp (a b : String) : (a ++ b).data = a.data ++ b.data := by
  cases a; cases b; rfl

/-- Boolean test that the first list is an initial segment of the second
(model of the list comparison underlying Go's strings.HasPrefix). -/
def listLeadsWith : List Char → List Char → Bool
  | [], _ => true
  | _ :: _, [] => false
  | a :: as, b :: bs => a == b && listLeadsWith as bs

/-- Model of Go's strings.HasPrefix(s, p). -/
def strHasPre (s p : String) : Bool := listLeadsWith p.data s.data

theorem listLeadsWith_iff (p s : List Char) :
    listLeadsWith p s = true ↔ ∃ t, p ++ t = s := by
  induction p generalizing s with
  | nil => simp [listLeadsWith]
  | cons a as ih =>
    cases s with
    | nil => simp [listLeadsWith]
    | cons b bs =>
      simp only [listLeadsWith, Bool.and_eq_true, beq_iff_eq, ih]
      constructor
      · rintro ⟨rfl, t, rfl⟩; exact ⟨t, rfl⟩
      · rintro ⟨t, h⟩
        injection h with h1 h2
        exact ⟨h1, t, h2⟩

theorem listLeadsWith_self_app (p t : List Char) :
    listLeadsWith p (p ++ t) = true :=
  (listLeadsWith_iff p (p ++ t)).mpr ⟨t, rfl⟩

/-- The name part of a NAME=VALUE token: everything before the first equals
sign (the whole token when it has none). -/
def namePart (s : String) : String := ⟨s.data.takeWhile (fun c => c != '=')⟩

/-- A list whose members are all distinct from the equals sign, followed by an
equals sign, determines a unique split of the concatenation. -/
theorem eqSplit {a b u v : List Char}
    (ha : ('=' : Char) ∉ a) (hb : ('=' : Char) ∉ b)
    (h : a ++ '=' :: u = b ++ '=' :: v) : a = b ∧ u = v := by
  induction a generalizing b with
  | nil =>
    cases b with
    | nil => simpa using h
    | cons c cs =>
      exfalso
      simp only [List.nil_append, List.cons_append, List.cons.injEq] at h
      exact hb (h.1 ▸ List.mem_cons_self c cs)
  | cons c cs ih =>
    cases b with
    | nil =>
      exfalso
      simp only [List.cons_append, List.nil_append, List.cons.injEq] at h
      exact ha (h.1.symm ▸ List.mem_cons_self c cs)
    | cons d ds =>
      simp only [List.cons_append, List.cons.injEq] at h
      have ha' : ('=' : Char) ∉ cs := fun hm => ha (List.mem_cons_of_mem _ hm)
      have hb' : ('=' : Char) ∉ ds := fun hm => hb (List.mem_cons_of_mem _ hm)
      obtain ⟨h1, h2⟩ := ih ha' hb' h.2
      exact ⟨by rw [h.1, h1], h2⟩

theorem takeWhileNe_app (k t : List Char) (hk : ('=' : Char) ∉ k) :
    (k ++ '=' :: t).takeWhile (fun c => c != '=') = k := by
  induction k with
  | nil => simp [List.takeWhile]
  | cons c cs ih =>
    have hc : c ≠ '=' := fun hc => hk (hc ▸ List.mem_cons_self c cs)
    have hcs : ('=' : Char) ∉ cs := fun hm => hk (List.mem_cons_of_mem _ hm)
    simp only [List.cons_append, List.takeWhile_cons]
    rw [if_pos (by simpa using hc), ih hcs]

/-- Environment variable with sensitivity metadata (docker.go, type EnvVar). -/
structure EnvVar where
  value : String
  sensitive : Bool
deriving DecidableEq, Repr

/-- Inner loop of sanitizeDockerArgs (docker.go lines 147-152): scan the env
entries, in the iteration order given by the list, for the first sensitive key
whose key= form is a prefix of the token, and redact with that key. -/
def redactPair (env : List (String × EnvVar)) (envPair : String) : String :=
  match env with
  | [] => envPair
  | (key, ev) :: rest =>
    if ev.sensitive && strHasPre envPair (key ++ "=") then key ++ "=***REDACTED***"
    else redactPair rest envPair

/-- One iteration of the outer loop of sanitizeDockerArgs (docker.go lines
143-154): if the element at index i is the -e flag and an element follows,
overwrite the following element with its redacted form. -/
def sanitizeGoStep (env : List (String × EnvVar)) (result : List String) (i : Nat) :
    List String :=
  if result.getD i "" = "-e" ∧ i + 1 < result.length then
    result.set (i + 1) (redactPair env (result.getD (i + 1) ""))
  else result

/-- The outer loop of sanitizeDockerArgs: run sanitizeGoStep at indices
i, i+1, ... for n iterations, threading the (copied) slice through. -/
def sanitizeIter (env : List (String × EnvVar)) : Nat → Nat → List String → List String
  | _, 0, result => result
  | i, Nat.succ n, result => sanitizeIter env (i + 1) n (sanitizeGoStep env result i)

/-- sanitizeDockerArgs (docker.go lines 139-157): copy the argument vector and
run the redaction loop over every index. -/
def sanitizeDockerArgs (args : List String) (env : List (String × EnvVar)) :
    List String :=
  sanitizeIter env 0 args.length args

/-- Pure restatement of the sanitizer's tail: each element is redacted exactly
when the preceding original element is the -e flag. -/
def sanitizeFrom (env : List (String × EnvVar)) (prev : String) : List String → List String
  | [] => []
  | a :: rest => (if prev = "-e" then redactPair env a else a) :: sanitizeFrom env a rest

/-- Pure restatement of sanitizeDockerArgs; proved equal to the loop below. -/
def sanitizePure (env : List (String × EnvVar)) : List String → List String
  | [] => []
  | a :: rest => a :: sanitizeFrom env a rest

theorem sanitizeFrom_length (env : List (String × EnvVar)) (prev : String)
    (l : List String) : (sanitizeFrom env prev l).length = l.length := by
  induction l generalizing prev with
  | nil => rfl
  | cons a rest ih => simp [sanitizeFrom, ih]

theorem sanitizePure_length (env : List (String × EnvVar)) (l : List String) :
    (sanitizePure env l).length = l.length := by
  cases l with
  | nil => rfl
  | cons a rest => simp [sanitizePure, sanitizeFrom_length]

theorem sanitizeFrom_getD (env : List (String × EnvVar)) (prev : String)
    (l : List String) (p : Nat) (hp : p < l.length) :
    (sanitizeFrom env prev l).getD p "" =
      if (if p = 0 then prev else l.getD (p - 1) "") = "-e"
      then redactPair env (l.getD p "") else l.getD p "" := by
  induction l generalizing prev p with
  | nil => simp at hp
  | cons a rest ih =>
    cases p with
    | zero => simp [sanitizeFrom]
    | succ q =>
      simp only [sanitizeFrom, List.getD_cons_succ]
      rw [ih a q (by simpa using hp)]
      congr 1
      cases q with
      | zero => simp
      | succ r => simp

theorem sanitizePure_getD (env : List (String × EnvVar)) (l : List String)
    (p : Nat) (hp : p < l.length) :
    (sanitizePure env l).getD p "" =
      if p ≠ 0 ∧ l.getD (p - 1) "" = "-e"
      then redactPair env (l.getD p "") else l.getD p "" := by
  cases l with
  | nil => simp at hp
  | cons a rest =>
    cases p with
    | zero => simp [sanitizePure]
    | succ q =>
      simp only [sanitizePure, List.getD_cons_succ]
      rw [sanitizeFrom_getD env a rest q (by simpa using hp)]
      simp only [Nat.succ_ne_zero, ne_eq, not_false_eq_true, true_and,
        Nat.succ_sub_one]
      congr 1
      cases q with
      | zero => simp
      | succ r => simp

theorem redactPair_cases (env : List (String × EnvVar)) (t : String) :
    redactPair env t = t ∨ ∃ key : String, redactPair env t = key ++ "=***REDACTED***" := by
  induction env with
  | nil => exact Or.inl rfl
  | cons kv rest ih =>
    obtain ⟨key, ev⟩ := kv
    by_cases h : (ev.sensitive && strHasPre t (key ++ "=")) = true
    · exact Or.inr ⟨key, by simp [redactPair, h]⟩
    · cases ih with
      | inl h1 => exact Or.inl (by simp only [redactPair, if_neg h]; exact h1)
      | inr h1 => exact Or.inr (by simp only [redactPair, if_neg h]; exact h1)

theorem strHasPre_eFlag (k : String) : strHasPre "-e" (k ++ "=") = false := by
  unfold strHasPre
  rw [strDataApp]
  have he : ("=" : String).data = ['='] := rfl
  have hme : ("-e" : String).data = ['-', 'e'] := rfl
  rw [he, hme]
  rcases k.data with _ | ⟨c, _ | ⟨d, cs⟩⟩
  · decide
  · simp [listLeadsWith]
  · cases cs <;> simp [listLeadsWith]

theorem redactPair_eFlag (env : List (String × EnvVar)) : redactPair env "-e" = "-e" := by
  induction env with
  | nil => rfl
  | cons kv rest ih =>
    obtain ⟨key, ev⟩ := kv
    simp only [redactPair, strHasPre_eFlag, Bool.and_false, Bool.false_eq_true,
      if_false, ih]

theorem redacted_ne_eFlag (k : String) : k ++ "=***REDACTED***" ≠ "-e" := by
  intro h
  have h2 := congrArg (fun s : String => s.data.length) h
  simp only [strDataApp, List.length_append] at h2
  have h3 : ("=***REDACTED***" : String).data.length = 15 := rfl
  have h4 : ("-e" : String).data.length = 2 := rfl
  rw [h3, h4] at h2
  omega

theorem sanitizePure_eFlag_iff (env : List (String × EnvVar)) (l : List String)
    (p : Nat) (hp : p < l.length) :
    ((sanitizePure env l).getD p "" = "-e") ↔ (l.getD p "" = "-e") := by
  rw [sanitizePure_getD env l p hp]
  by_cases h : p ≠ 0 ∧ l.getD (p - 1) "" = "-e"
  · rw [if_pos h]
    constructor
    · intro hr
      rcases redactPair_cases env (l.getD p "") with h1 | ⟨key, h1⟩
      · rw [h1] at hr; exact hr
      · rw [h1] at hr; exact absurd hr (redacted_ne_eFlag key)
    · intro hl; rw [hl]; exact redactPair_eFlag env
  · rw [if_neg h]

theorem listTake_succ_getD {α : Type} (l : List α) (d : α) (i : Nat)
    (hi : i < l.length) : l.take (i + 1) = l.take i ++ [l.getD i d] := by
  rw [List.take_succ, List.getElem?_eq_getElem hi]
  simp [List.getD, List.getElem?_eq_getElem hi]

/-- The mixed state of the sanitizer loop after the first i+1 positions are
final: a prefix of the pure result followed by the untouched original tail. -/
def sanitizeMix (env : List (String × EnvVar)) (args : List String) (i : Nat) :
    List String :=
  (sanitizePure env args).take (i + 1) ++ args.drop (i + 1)

theorem sanitizeMix_zero (env : List (String × EnvVar)) (args : List String) :
    sanitizeMix env args 0 = args := by
  cases args with
  | nil => rfl
  | cons a rest => simp [sanitizeMix, sanitizePure]

theorem sanitizeMix_getD_lt (env : List (String × EnvVar)) (args : List String)
    (i p : Nat) (hp : p ≤ i) (hi : i < args.length) :
    (sanitizeMix env args i).getD p "" = (sanitizePure env args).getD p "" := by
  unfold sanitizeMix
  rw [List.getD_eq_getElem?_getD,
    List.getElem?_append_left (by rw [List.length_take, sanitizePure_length]; omega),
    List.getElem?_take_of_lt (by omega), ← List.getD_eq_getElem?_getD]

theorem sanitizeMix_length (env : List (String × EnvVar)) (args : List String)
    (i : Nat) (hi : i < args.length) :
    (sanitizeMix env args i).length = args.length := by
  unfold sanitizeMix
  rw [List.length_append, List.length_take, List.length_drop, sanitizePure_length]
  omega

theorem sanitizeStep_mix (env : List (String × EnvVar)) (args : List String)
    (i : Nat) (hi : i < args.length) :
    sanitizeGoStep env (sanitizeMix env args i) i = sanitizeMix env args (i + 1) := by
  have hlenP : (sanitizePure env args).length = args.length := sanitizePure_length env args
  have hmixlen : (sanitizeMix env args i).length = args.length :=
    sanitizeMix_length env args i hi
  have hgetI : (sanitizeMix env args i).getD i "" = (sanitizePure env args).getD i "" :=
    sanitizeMix_getD_lt env args i i le_rfl hi
  unfold sanitizeGoStep
  by_cases hi1 : i + 1 < args.length
  · have htk : (List.take (i + 1) (sanitizePure env args)).length = i + 1 := by
      rw [List.length_take, hlenP]; omega
    have hgetI1 : (sanitizeMix env args i).getD (i + 1) "" = args.getD (i + 1) "" := by
      unfold sanitizeMix
      rw [List.getD_eq_getElem?_getD, List.getElem?_append_right (by omega : (List.take (i + 1) (sanitizePure env args)).length ≤ i + 1)]
      rw [htk, Nat.sub_self, List.getElem?_drop, Nat.add_zero, ← List.getD_eq_getElem?_getD]
    by_cases hflag : args.getD i "" = "-e"
    · have hPflag : (sanitizeMix env args i).getD i "" = "-e" := by
        rw [hgetI]; exact (sanitizePure_eFlag_iff env args i (by omega)).mpr hflag
      rw [if_pos ⟨hPflag, by omega⟩]
      have hv : redactPair env ((sanitizeMix env args i).getD (i + 1) "") =
          (sanitizePure env args).getD (i + 1) "" := by
        rw [hgetI1, sanitizePure_getD env args (i + 1) hi1]
        rw [if_pos ⟨Nat.succ_ne_zero i, by simpa using hflag⟩]
      rw [hv]
      unfold sanitizeMix
      rw [List.set_append_right _ _ (by omega : (List.take (i + 1) (sanitizePure env args)).length ≤ i + 1)]
      rw [htk, Nat.sub_self, List.drop_eq_getElem_cons hi1, List.set_cons_zero]
      rw [listTake_succ_getD (sanitizePure env args) "" (i + 1) (by omega)]
      simp
    · have hPne : ¬((sanitizeMix env args i).getD i "" = "-e" ∧
          i + 1 < (sanitizeMix env args i).length) := by
        rintro ⟨h1, _⟩
        exact hflag ((sanitizePure_eFlag_iff env args i (by omega)).mp (hgetI ▸ h1))
      rw [if_neg hPne]
      have hPi1 : (sanitizePure env args).getD (i + 1) "" = args.getD (i + 1) "" := by
        rw [sanitizePure_getD env args (i + 1) hi1, if_neg]
        rintro ⟨_, h2⟩
        exact hflag (by simpa using h2)
      unfold sanitizeMix
      rw [listTake_succ_getD (sanitizePure env args) "" (i + 1) (by omega)]
      rw [List.drop_eq_getElem_cons hi1, hPi1]
      have hgd : args.getD (i + 1) "" = args[i + 1] := by
        rw [List.getD_eq_getElem?_getD, List.getElem?_eq_getElem hi1]; rfl
      rw [hgd]
      simp
  · have hcondF : ¬((sanitizeMix env args i).getD i "" = "-e" ∧
        i + 1 < (sanitizeMix env args i).length) := by
      rintro ⟨_, h2⟩
      rw [hmixlen] at h2
      omega
    rw [if_neg hcondF]
    unfold sanitizeMix
    rw [List.take_of_length_le (by omega : (sanitizePure env args).length ≤ i + 1),
      List.take_of_length_le (by omega : (sanitizePure env args).length ≤ i + 1 + 1),
      List.drop_eq_nil_of_le (by omega : args.length ≤ i + 1),
      List.drop_eq_nil_of_le (by omega : args.length ≤ i + 1 + 1)]

theorem sanitizeIter_mix (env : List (String × EnvVar)) (args : List String) :
    ∀ n i, i + n = args.length →
      sanitizeIter env i n (sanitizeMix env args i) = sanitizePure env args := by
  intro n
  induction n with
  | zero =>
    intro i hie
    show sanitizeMix env args i = sanitizePure env args
    unfold sanitizeMix
    rw [List.take_of_length_le (by rw [sanitizePure_length]; omega),
      List.drop_eq_nil_of_le (by omega), List.append_nil]
  | succ n ih =>
    intro i hie
    show sanitizeIter env (i + 1) n (sanitizeGoStep env (sanitizeMix env args i) i) =
      sanitizePure env args
    rw [sanitizeStep_mix env args i (by omega)]
    exact ih (i + 1) (by omega)

/-- The in-place redaction loop of sanitizeDockerArgs computes the pure
position-wise description: a token is redacted exactly when the original token
before it is the -e flag. -/
theorem sanitizeDockerArgs_eq_pure (args : List String) (env : List (String × EnvVar)) :
    sanitizeDockerArgs args env = sanitizePure env args := by
  have h := sanitizeIter_mix env args args.length 0 (by omega)
  rw [sanitizeMix_zero] at h
  exact h

theorem strHasPre_self_app (a b : String) : strHasPre (a ++ b) a = true := by
  unfold strHasPre
  rw [strDataApp]
  exact listLeadsWith_self_app a.data b.data

theorem strHasPre_split {s p : String} (h : strHasPre s p = true) :
    ∃ t : List Char, p.data ++ t = s.data :=
  (listLeadsWith_iff p.data s.data).mp h

/-- If the name before the first equals sign of a NAME=VALUE token is marked
sensitive, and no key of the map contains an equals sign, the inner loop
redacts the token to exactly NAME=***REDACTED***. -/
theorem redactPair_redacts (env : List (String × EnvVar)) (name value : String)
    (hkeys : ∀ kv ∈ env, ('=' : Char) ∉ kv.1.data)
    (hname : ('=' : Char) ∉ name.data)
    (hsens : ∃ ev : EnvVar, (name, ev) ∈ env ∧ ev.sensitive = true) :
    redactPair env (name ++ "=" ++ value) = name ++ "=***REDACTED***" := by
  induction env with
  | nil =>
    obtain ⟨ev, hmem, _⟩ := hsens
    simp at hmem
  | cons kv rest ih =>
    obtain ⟨key, ev⟩ := kv
    have hkey : ('=' : Char) ∉ key.data := by
      simpa using hkeys (key, ev) (List.mem_cons_self _ _)
    show (if ev.sensitive && strHasPre (name ++ "=" ++ value) (key ++ "=")
      then key ++ "=***REDACTED***" else redactPair rest (name ++ "=" ++ value)) = _
    by_cases hc : (ev.sensitive && strHasPre (name ++ "=" ++ value) (key ++ "=")) = true
    · rw [if_pos hc]
      obtain ⟨-, hpre⟩ := Bool.and_eq_true_iff.mp hc
      obtain ⟨t, ht⟩ := strHasPre_split hpre
      rw [strDataApp, strDataApp, strDataApp] at ht
      have he : ("=" : String).data = ['='] := rfl
      rw [he] at ht
      have ht' : key.data ++ '=' :: t = name.data ++ '=' :: value.data := by
        simpa [List.append_assoc] using ht
      obtain ⟨h1, -⟩ := eqSplit hkey hname ht'
      rw [strExt h1]
    · rw [if_neg hc]
      apply ih
      · intro kv hkv
        exact hkeys kv (List.mem_cons_of_mem _ hkv)
      · obtain ⟨ev', hmem, hs'⟩ := hsens
        rcases List.mem_cons.mp hmem with heq | hmem'
        · exfalso
          apply hc
          obtain ⟨h1, h2⟩ := Prod.mk.injEq .. ▸ heq
          rw [← h1, ← h2, hs', Bool.true_and]
          have : name ++ "=" ++ value = (name ++ "=") ++ value := by
            rw [String.append_assoc]
          rw [this]
          exact strHasPre_self_app (name ++ "=") value
        · exact ⟨ev', hmem', hs'⟩

/-- If no key of the map contains an equals sign and the name part of the
token is not marked sensitive, the inner loop leaves the token unchanged. -/
theorem redactPair_skip (env : List (String × EnvVar)) (t : String)
    (hkeys : ∀ kv ∈ env, ('=' : Char) ∉ kv.1.data)
    (hns : ∀ kv ∈ env, kv.1 = namePart t → kv.2.sensitive = false) :
    redactPair env t = t := by
  induction env with
  | nil => rfl
  | cons kv rest ih =>
    obtain ⟨key, ev⟩ := kv
    have hkey : ('=' : Char) ∉ key.data := by
      simpa using hkeys (key, ev) (List.mem_cons_self _ _)
    show (if ev.sensitive && strHasPre t (key ++ "=")
      then key ++ "=***REDACTED***" else redactPair rest t) = t
    by_cases hc : (ev.sensitive && strHasPre t (key ++ "=")) = true
    · exfalso
      obtain ⟨hs, hpre⟩ := Bool.and_eq_true_iff.mp hc
      obtain ⟨tl, htl⟩ := strHasPre_split hpre
      rw [strDataApp] at htl
      have he : ("=" : String).data = ['='] := rfl
      rw [he] at htl
      have hnp : namePart t = key := by
        unfold namePart
        rw [← htl]
        have : (key.data ++ ['=']) ++ tl = key.data ++ '=' :: tl := by
          simp
        rw [this, takeWhileNe_app key.data tl hkey]
      have := hns (key, ev) (List.mem_cons_self _ _) hnp.symm
      rw [hs] at this
      exact absurd this (by decide)
    · rw [if_neg hc]
      apply ih
      · intro kv hkv
        exact hkeys kv (List.mem_cons_of_mem _ hkv)
      · intro kv hkv
        exact hns kv (List.mem_cons_of_mem _ hkv)

/-- Claim C3 (amended): for every argument vector and sensitivity map whose
keys contain no equals sign, a token of the form name=value immediately
following an environment-flag token, with name (the part before the first
equals sign) marked sensitive, is replaced in the output of sanitizeDockerArgs
by the token name=***REDACTED*** at that position, which is independent of the
value; the value can survive only in other tokens, which pass through. -/
theorem sanitizeDockerArgs_redacts_sensitive (args : List String)
    (env : List (String × EnvVar)) (i : Nat) (name value : String)
    (hkeys : ∀ kv ∈ env, ('=' : Char) ∉ kv.1.data)
    (hname : ('=' : Char) ∉ name.data)
    (hlen : i + 1 < args.length)
    (hflag : args.getD i "" = "-e")
    (hpair : args.getD (i + 1) "" = name ++ "=" ++ value)
    (hsens : ∃ ev : EnvVar, (name, ev) ∈ env ∧ ev.sensitive = true) :
    (sanitizeDockerArgs args env).getD (i + 1) "" = name ++ "=***REDACTED***" := by
  rw [sanitizeDockerArgs_eq_pure, sanitizePure_getD env args (i + 1) hlen]
  rw [if_pos ⟨Nat.succ_ne_zero i, by simpa using hflag⟩, hpair]
  exact redactPair_redacts env name value hkeys hname hsens

/-- Witness for C3 at the repository's own test vector: the sensitive
API_KEY=secret123 pair is redacted in place. -/
theorem sanitizeDockerArgs_redacts_sensitive_witness :
    (sanitizeDockerArgs ["run", "--rm", "-e", "API_KEY=secret123", "image:latest"]
      [("API_KEY", EnvVar.mk "secret123" true)]).getD 3 "" = "API_KEY" ++ "=***REDACTED***" :=
  sanitizeDockerArgs_redacts_sensitive
    ["run", "--rm", "-e", "API_KEY=secret123", "image:latest"]
    [("API_KEY", EnvVar.mk "secret123" true)] 2 "API_KEY" "secret123"
    (by decide) (by decide) (by decide) (by decide) (by decide)
    ⟨EnvVar.mk "secret123" true, by decide, rfl⟩

/-- Counterexample to C3 as stated: the claim demands that the output never
contain the original value anywhere, but a token equal to the value elsewhere
in the vector passes through unchanged, so the value does appear in the
output. -/
theorem sanitizeDockerArgs_value_leak_counterexample :
    sanitizeDockerArgs ["-e", "A=x", "x"] [("A", EnvVar.mk "x" true)] =
      ["-e", "A=***REDACTED***", "x"] ∧
    "x" ∈ sanitizeDockerArgs ["-e", "A=x", "x"] [("A", EnvVar.mk "x" true)] := by
  constructor
  · decide
  · decide

/-- Claim C7 (amended): provided no key of the sensitivity map contains an
equals sign, every token that does not immediately follow an environment-flag
token, and every token following one whose name part is absent from the map or
marked non-sensitive, passes through sanitizeDockerArgs unchanged at the same
position. -/
theorem sanitizeDockerArgs_passthrough (args : List String)
    (env : List (String × EnvVar)) (p : Nat)
    (hkeys : ∀ kv ∈ env, ('=' : Char) ∉ kv.1.data)
    (hp : p < args.length)
    (hcase : p = 0 ∨ args.getD (p - 1) "" ≠ "-e" ∨
      (∀ kv ∈ env, kv.1 = namePart (args.getD p "") → kv.2.sensitive = false)) :
    (sanitizeDockerArgs args env).getD p "" = args.getD p "" := by
  rw [sanitizeDockerArgs_eq_pure, sanitizePure_getD env args p hp]
  by_cases hcond : p ≠ 0 ∧ args.getD (p - 1) "" = "-e"
  · rw [if_pos hcond]
    rcases hcase with h0 | hne | hns
    · exact absurd h0 hcond.1
    · exact absurd hcond.2 hne
    · exact redactPair_skip env _ hkeys hns
  · rw [if_neg hcond]

/-- Witness for C7 at the repository's own test vector: a pair whose name is
not in the map passes through unchanged. -/
theorem sanitizeDockerArgs_passthrough_witness :
    (sanitizeDockerArgs ["run", "--rm", "-e", "UNKNOWN=value", "image:latest"]
        [("API_KEY", EnvVar.mk "secret" true)]).getD 3 "" =
      (["run", "--rm", "-e", "UNKNOWN=value", "image:latest"]).getD 3 "" :=
  sanitizeDockerArgs_passthrough
    ["run", "--rm", "-e", "UNKNOWN=value", "image:latest"]
    [("API_KEY", EnvVar.mk "secret" true)] 3
    (by decide) (by decide) (Or.inr (Or.inr (by decide)))

/-- Counterexample to C7 as stated: with a (degenerate) sensitivity key that
itself contains an equals sign, a token whose name part is absent from the map
is nevertheless modified. -/
theorem sanitizeDockerArgs_passthrough_counterexample :
    namePart "A=B=x" = "A" ∧ ("A" : String) ≠ "A=B" ∧
    sanitizeDockerArgs ["-e", "A=B=x"] [("A=B", EnvVar.mk "x" true)] =
      ["-e", "A=B=***REDACTED***"] ∧
    sanitizeDockerArgs ["-e", "A=B=x"] [("A=B", EnvVar.mk "x" true)] ≠
      ["-e", "A=B=x"] := by
  refine ⟨by decide, by decide, by decide, by decide⟩

/-- Claim C10: sanitizeDockerArgs is total; it preserves the length of the
argument vector, and a trailing environment-flag token (with nothing after it
to inspect) is returned unchanged as the last element. -/
theorem sanitizeDockerArgs_total_trailing (args : List String)
    (env : List (String × EnvVar)) :
    (sanitizeDockerArgs args env).length = args.length ∧
    (args.getLast? = some "-e" → (sanitizeDockerArgs args env).getLast? = some "-e") := by
  rw [sanitizeDockerArgs_eq_pure]
  refine ⟨sanitizePure_length env args, ?_⟩
  intro h
  have hne : args ≠ [] := by
    intro he
    rw [he] at h
    simp at h
  have hlen : 0 < args.length := List.length_pos.mpr hne
  rw [List.getLast?_eq_getElem?] at h ⊢
  rw [sanitizePure_length]
  have hlt : args.length - 1 < args.length := by omega
  rw [List.getElem?_eq_getElem hlt] at h
  have hgd : args.getD (args.length - 1) "" = "-e" := by
    rw [List.getD_eq_getElem?_getD, List.getElem?_eq_getElem hlt]
    simpa using h
  have hplen : args.length - 1 < (sanitizePure env args).length := by
    rw [sanitizePure_length]
    omega
  rw [List.getElem?_eq_getElem hplen]
  have hpv : (sanitizePure env args).getD (args.length - 1) "" = "-e" := by
    rw [sanitizePure_getD env args _ (by omega)]
    by_cases hc : (args.length - 1) ≠ 0 ∧ args.getD (args.length - 1 - 1) "" = "-e"
    · rw [if_pos hc, hgd]
      exact redactPair_eFlag env
    · rw [if_neg hc]
      exact hgd
  rw [List.getD_eq_getElem?_getD, List.getElem?_eq_getElem hplen] at hpv
  exact congrArg some (by simpa using hpv)

/-- Witness for C10 at the repository's own edge-case test vector: a trailing
-e flag with a sensitive key in the map. -/
theorem sanitizeDockerArgs_total_trailing_witness :
    (sanitizeDockerArgs ["run", "--rm", "image:latest", "-e"]
      [("API_KEY", EnvVar.mk "secret" true)]).length = 4 ∧
    (sanitizeDockerArgs ["run", "--rm", "image:latest", "-e"]
      [("API_KEY", EnvVar.mk "secret" true)]).getLast? = some "-e" :=
  ⟨((sanitizeDockerArgs_total_trailing ["run", "--rm", "image:latest", "-e"]
      [("API_KEY", EnvVar.mk "secret" true)]).1).trans (by decide),
   (sanitizeDockerArgs_total_trailing ["run", "--rm", "image:latest", "-e"]
      [("API_KEY", EnvVar.mk "secret" true)]).2 (by decide)⟩

/-- Argument-vector assembly of RunContainer (docker.go lines 33-58), given
the enumeration order in which Go's map range delivers the environment
entries: run, optional auto-remove flag, tmpfs mounts, environment variables,
work-dir volume mount and working directory, image, trailing arguments. -/
def buildRunContainerArgs (image absWorkDir : String) (args : List String)
    (envOrder : List (String × EnvVar)) (tmpfs : List String)
    (removeContainer : Bool) : List String :=
  let d0 := ["run"]
  let d1 := if removeContainer then d0 ++ ["--rm"] else d0
  let d2 := tmpfs.foldl (fun acc mount => acc ++ ["--tmpfs", mount]) d1
  let d3 := envOrder.foldl
    (fun acc kv => acc ++ ["-e", kv.1 ++ "=" ++ kv.2.value]) d2
  let d4 := d3 ++ ["-v", absWorkDir ++ ":/workspace", "-w", "/workspace", image]
  d4 ++ args

theorem foldl_app_flatMap {α β : Type} (l : List α) (f : α → List β) :
    ∀ init : List β,
      l.foldl (fun acc x => acc ++ f x) init = init ++ l.flatMap f := by
  induction l with
  | nil => intro init; simp
  | cons a as ih =>
    intro init
    simp only [List.foldl_cons, List.flatMap_cons, ih]
    rw [← List.append_assoc]

/-- Claim C2 (amended): for each fixed enumeration order of the environment
map, RunContainer assembles the docker argument vector deterministically as
the concatenation of the sections in the specified order: the run verb, the
auto-remove flag, the volatile tmpfs mounts, the environment variables in the
given enumeration order, the persistent work-dir mount, the executable
reference, and the trailing arguments.  (The enumeration order itself is not
fixed by the code: Go randomizes map iteration, see the counterexample.) -/
theorem buildRunContainerArgs_sections (image absWorkDir : String)
    (args : List String) (envOrder : List (String × EnvVar))
    (tmpfs : List String) (removeContainer : Bool) :
    buildRunContainerArgs image absWorkDir args envOrder tmpfs removeContainer =
      ["run"] ++ (if removeContainer then ["--rm"] else []) ++
      tmpfs.flatMap (fun mount => ["--tmpfs", mount]) ++
      envOrder.flatMap (fun kv => ["-e", kv.1 ++ "=" ++ kv.2.value]) ++
      ["-v", absWorkDir ++ ":/workspace", "-w", "/workspace", image] ++ args := by
  unfold buildRunContainerArgs
  dsimp only
  rw [foldl_app_flatMap, foldl_app_flatMap]
  cases removeContainer <;> simp

/-- Counterexample to C2 as stated: two runs over the same environment map
may see the two entries in either order (the two orders are permutations of
one another, which is all Go guarantees for map iteration), and the resulting
argument vectors differ, so the argument vector is not a function of the
input alone. -/
theorem buildRunContainerArgs_order_counterexample :
    List.Perm [("A", EnvVar.mk "1" false), ("B", EnvVar.mk "2" false)]
      [("B", EnvVar.mk "2" false), ("A", EnvVar.mk "1" false)] ∧
    buildRunContainerArgs "img" "/w" []
        [("A", EnvVar.mk "1" false), ("B", EnvVar.mk "2" false)] [] false ≠
      buildRunContainerArgs "img" "/w" []
        [("B", EnvVar.mk "2" false), ("A", EnvVar.mk "1" false)] [] false :=
  ⟨List.Perm.swap ("B", EnvVar.mk "2" false) ("A", EnvVar.mk "1" false) [],
   by decide⟩

/-- Modelled from the spec (external docker behavior): listing the currently
known background jobs prints one container name per line, each line terminated
by a newline. -/
def containerListOutput (containers : List String) : String :=
  String.join (containers.map (fun n => n ++ "\n"))

/-- The existence check of RunDaemon (docker.go lines 87-94): the loop ranges
over the one-element slice holding the entire listing output and compares each
element — that is, the whole output — with the name. -/
def containerNameListed (output name : String) : Bool :=
  [output].any (fun line => line == name)

/-- Modelled from the spec (external docker behavior): forcibly removing a
named container deletes it from the set of known containers. -/
def dockerForceRemove (containers : List String) (name : String) : List String :=
  containers.filter (fun c => c != name)

/-- One call of RunDaemon (docker.go lines 79-136) acting on the set of
existing container names: list the containers, decide existence with the
source's comparison, remove if found, then launch detached.  Modelled from the
spec for the docker side: launching a named container fails (None) when a
container with that name still exists — the spec's precondition for a
successful launch is that no conflicting job runs under that identity. -/
def runDaemonStart (containers : List String) (name : String) :
    Option (List String) :=
  let output := containerListOutput containers
  let found := containerNameListed output name
  let remaining := if found then dockerForceRemove containers name else containers
  if remaining.contains name then none else some (remaining ++ [name])

/-- Claim C1 is refuted by the code: the first RunDaemon call launches the
container, but a second call with the identical identity does not detect the
existing container (the code compares the entire newline-terminated listing
output against the name instead of splitting it into lines), so the stale
container is not removed and the second launch fails on the name conflict,
contradicting the function's own idempotency doc comment and the spec. -/
theorem runDaemon_restart_bug :
    runDaemonStart [] "ibgateway" = some ["ibgateway"] ∧
    runDaemonStart ["ibgateway"] "ibgateway" = none ∧
    containerListOutput ["ibgateway"] = "ibgateway\n" ∧
    containerNameListed "ibgateway\n" "ibgateway" = false ∧
    ("ibgateway" : String) ∈ ["ibgateway"] := by
  refine ⟨by decide, ?_, by decide, by decide, by decide⟩
  decide

/-- One observable access to the credential store or to the interactive
prompt, tagged with the account it addresses. -/
inductive StoreEvent where
  | existsCheck (account : String)
  | read (account : String)
  | write (account : String)
  | delete (account : String)
  | promptUser (account : String)
deriving DecidableEq, Repr

/-- The account a store event addresses. -/
def storeEventAccount : StoreEvent → String
  | .existsCheck a => a
  | .read a => a
  | .write a => a
  | .delete a => a
  | .promptUser a => a

/-- The credential store, modelled as an association from account names to
stored passwords (the macOS keychain backend is external; entries are
addressed by account, keychain/keychain.go). -/
def storeLookup (ks : List (String × String)) (a : String) : Option String :=
  (ks.find? (fun e => e.1 == a)).map (fun e => e.2)

/-- delete-generic-password: remove the entry for the account. -/
def storeDelete (ks : List (String × String)) (a : String) :
    List (String × String) :=
  ks.filter (fun e => e.1 != a)

/-- add-generic-password -U: store or update the entry for the account. -/
def storeSet (ks : List (String × String)) (a v : String) :
    List (String × String) :=
  (a, v) :: storeDelete ks a

/-- GetOrSetPassword (keychain/keychain.go): with reset, delete any existing
entry (best effort) and prompt for a new value, storing it; otherwise return
the stored value when one exists, else prompt, store and return.  promptVal is
the value the user would enter at the prompt.  Returns the resolved value, the
updated store, and the trace of store/prompt accesses. -/
def getOrSetPassword (account : String) (reset : Bool)
    (ks : List (String × String)) (promptVal : String) :
    String × List (String × String) × List StoreEvent :=
  if reset then
    if (storeLookup ks account).isSome then
      (promptVal, storeSet (storeDelete ks account) account promptVal,
        [StoreEvent.existsCheck account, StoreEvent.delete account,
          StoreEvent.promptUser account, StoreEvent.write account])
    else
      (promptVal, storeSet ks account promptVal,
        [StoreEvent.existsCheck account,
          StoreEvent.promptUser account, StoreEvent.write account])
  else
    match storeLookup ks account with
    | some v => (v, ks, [StoreEvent.existsCheck account, StoreEvent.read account])
    | none =>
      (promptVal, storeSet ks account promptVal,
        [StoreEvent.existsCheck account,
          StoreEvent.promptUser account, StoreEvent.write account])

/-- The storage account addressed by getCredential (bw_backup.go lines 32-36):
the bare logical name, or the name suffixed with an underscore and the profile
when a profile is given. -/
def credentialAccount (keychainAccount profile : String) : String :=
  if profile ≠ "" then keychainAccount ++ "_" ++ profile else keychainAccount

/-- getCredential (bw_backup.go lines 27-41): an explicit flag value wins
immediately; otherwise resolve through the keychain under the
profile-dependent account.  Returns the resolved value, the updated store, and
the trace of store/prompt accesses (empty when the flag short-circuits). -/
def getCredential (flagValue keychainAccount profile : String) (reset : Bool)
    (ks : List (String × String)) (promptVal : String) :
    String × List (String × String) × List StoreEvent :=
  if flagValue ≠ "" then (flagValue, ks, [])
  else getOrSetPassword (credentialAccount keychainAccount profile) reset ks promptVal

/-- Modelled from the spec: the pre-profile-support resolver addressed the
credential store directly under the bare logical name (and kept the
explicit-flag short-circuit). -/
def preProfileGetCredential (flagValue keychainAccount : String) (reset : Bool)
    (ks : List (String × String)) (promptVal : String) :
    String × List (String × String) × List StoreEvent :=
  if flagValue ≠ "" then (flagValue, ks, [])
  else getOrSetPassword keychainAccount reset ks promptVal

theorem getOrSetPassword_events (account : String) (reset : Bool)
    (ks : List (String × String)) (promptVal : String) :
    ∀ e ∈ (getOrSetPassword account reset ks promptVal).2.2,
      storeEventAccount e = account := by
  intro e he
  unfold getOrSetPassword at he
  cases reset with
  | true =>
    by_cases hx : (storeLookup ks account).isSome
    · simp only [if_pos rfl, if_pos hx] at he
      fin_cases he <;> rfl
    · simp only [if_pos rfl, if_neg hx] at he
      fin_cases he <;> rfl
  | false =>
    simp only [Bool.false_eq_true, if_false] at he
    cases hl : storeLookup ks account with
    | some v =>
      rw [hl] at he
      fin_cases he <;> rfl
    | none =>
      rw [hl] at he
      fin_cases he <;> rfl

theorem getOrSetPassword_value (account : String) (reset : Bool)
    (ks : List (String × String)) (promptVal : String) :
    (∃ v, storeLookup ks account = some v ∧
      (getOrSetPassword account reset ks promptVal).1 = v) ∨
    (getOrSetPassword account reset ks promptVal).1 = promptVal := by
  unfold getOrSetPassword
  cases reset with
  | true =>
    by_cases hx : (storeLookup ks account).isSome
    · right; simp [hx]
    · right; simp [hx]
  | false =>
    cases hl : storeLookup ks account with
    | some v => left; exact ⟨v, rfl, by simp⟩
    | none => right; simp

/-- Claim C5: resolving a credential with an empty profile suffix addresses
exactly the bare logical name — the same storage account as the
pre-profile-support scheme, so omitting the profile never changes which stored
secret is read or written — while a non-empty profile suffix addresses
logicalName_profileSuffix, and every store access of the resolver touches only
that one account. -/
theorem getCredential_profile_key_compat (n p : String) (r : Bool)
    (ks : List (String × String)) (pr : String) (hp : p ≠ "") :
    credentialAccount n "" = n ∧
    credentialAccount n p = n ++ "_" ++ p ∧
    getCredential "" n "" r ks pr = preProfileGetCredential "" n r ks pr ∧
    (∀ e ∈ (getCredential "" n "" r ks pr).2.2, storeEventAccount e = n) ∧
    (∀ e ∈ (getCredential "" n p r ks pr).2.2,
      storeEventAccount e = n ++ "_" ++ p) := by
  have hacc0 : credentialAccount n "" = n := by simp [credentialAccount]
  have haccp : credentialAccount n p = n ++ "_" ++ p := by
    simp [credentialAccount, hp]
  refine ⟨hacc0, haccp, ?_, ?_, ?_⟩
  · unfold getCredential preProfileGetCredential
    rw [hacc0]
  · intro e he
    unfold getCredential at he
    rw [hacc0] at he
    simp only [ne_eq, not_true_eq_false, if_false] at he
    exact getOrSetPassword_events n r ks pr e he
  · intro e he
    unfold getCredential at he
    rw [haccp] at he
    simp only [ne_eq, not_true_eq_false, if_false] at he
    exact getOrSetPassword_events (n ++ "_" ++ p) r ks pr e he

/-- Witness for C5 at a concrete logical name and profile. -/
theorem getCredential_profile_key_compat_witness :
    credentialAccount "bitwarden_client_id" "" = "bitwarden_client_id" ∧
    credentialAccount "bitwarden_client_id" "work" =
      "bitwarden_client_id" ++ "_" ++ "work" ∧
    getCredential "" "bitwarden_client_id" "" false [] "pw" =
      preProfileGetCredential "" "bitwarden_client_id" false [] "pw" :=
  ⟨(getCredential_profile_key_compat "bitwarden_client_id" "work" false [] "pw"
      (by decide)).1,
   (getCredential_profile_key_compat "bitwarden_client_id" "work" false [] "pw"
      (by decide)).2.1,
   (getCredential_profile_key_compat "bitwarden_client_id" "work" false [] "pw"
      (by decide)).2.2.1⟩

/-- Claim C6: a non-empty explicit flag value short-circuits the resolver:
getCredential returns it unchanged, leaves the store untouched, and performs
no store access and no prompt (empty access trace). -/
theorem getCredential_explicit_short_circuit (x n p : String) (r : Bool)
    (ks : List (String × String)) (pr : String) (hx : x ≠ "") :
    getCredential x n p r ks pr = (x, ks, []) := by
  unfold getCredential
  rw [if_pos hx]

/-- Witness for C6: an explicit client id is returned as-is with an empty
access trace against a non-trivial store. -/
theorem getCredential_explicit_short_circuit_witness :
    getCredential "explicit-id" "bitwarden_client_id" "work" true
      [("bitwarden_client_id_work", "stored")] "pw" =
      ("explicit-id", [("bitwarden_client_id_work", "stored")], []) :=
  getCredential_explicit_short_circuit "explicit-id" "bitwarden_client_id"
    "work" true [("bitwarden_client_id_work", "stored")] "pw" (by decide)

/-- The command-line credential flags of the bw-backup command (main.go):
client-id, client-secret, password.  In batch mode backupVault receives the
cli context as a discarded parameter and never consults these flags. -/
structure CliFlags where
  clientID : String
  clientSecret : String
  password : String
deriving DecidableEq, Repr

/-- The credential-resolution phase of backupVault (bw_backup.go lines
248-263): resolve client id, client secret and master password sequentially
through getCredential, each with an empty explicit value and the profile name
as suffix, threading the store.  The cli flags parameter mirrors the
discarded context argument of the Go function.  Returns the three resolved
credentials, the final store, and the concatenated access trace. -/
def backupVaultCredentials (_c : CliFlags) (profileName : String) (reset : Bool)
    (ks : List (String × String)) (pr1 pr2 pr3 : String) :
    (String × String × String) × List (String × String) × List StoreEvent :=
  let r1 := getCredential "" "bitwarden_client_id" profileName reset ks pr1
  let r2 := getCredential "" "bitwarden_client_secret" profileName reset r1.2.1 pr2
  let r3 := getCredential "" "bitwarden_password" profileName reset r2.2.1 pr3
  ((r1.1, r2.1, r3.1), r3.2.1, r1.2.2 ++ r2.2.2 ++ r3.2.2)

/-- Claim C8: in batch mode the command-line credential flags are ignored —
backupVault resolves all three Bitwarden credentials by calling the resolver
with an empty explicit value, so the result is the same for any two flag
settings; every store or prompt access is made under one of the three
profile-suffixed accounts; and each credential comes from the store (when
present) or from the interactive prompt, never from a flag. -/
theorem backupVault_ignores_credential_flags (c c' : CliFlags)
    (pn : String) (r : Bool) (ks : List (String × String))
    (pr1 pr2 pr3 : String) (hn : pn ≠ "") :
    backupVaultCredentials c pn r ks pr1 pr2 pr3 =
      backupVaultCredentials c' pn r ks pr1 pr2 pr3 ∧
    (backupVaultCredentials c pn r ks pr1 pr2 pr3).1.1 =
      (getCredential "" "bitwarden_client_id" pn r ks pr1).1 ∧
    (∀ e ∈ (backupVaultCredentials c pn r ks pr1 pr2 pr3).2.2,
      storeEventAccount e = "bitwarden_client_id" ++ "_" ++ pn ∨
      storeEventAccount e = "bitwarden_client_secret" ++ "_" ++ pn ∨
      storeEventAccount e = "bitwarden_password" ++ "_" ++ pn) ∧
    ((∃ v, storeLookup ks ("bitwarden_client_id" ++ "_" ++ pn) = some v ∧
        (backupVaultCredentials c pn r ks pr1 pr2 pr3).1.1 = v) ∨
      (backupVaultCredentials c pn r ks pr1 pr2 pr3).1.1 = pr1) := by
  refine ⟨rfl, rfl, ?_, ?_⟩
  · intro e he
    unfold backupVaultCredentials at he
    simp only [List.mem_append] at he
    have hstep : ∀ (na : String) (ks0 : List (String × String)) (pv : String),
        e ∈ (getCredential "" na pn r ks0 pv).2.2 →
        storeEventAccount e = na ++ "_" ++ pn := by
      intro na ks0 pv hmem
      unfold getCredential at hmem
      simp only [ne_eq, not_true_eq_false, if_false] at hmem
      have hacc : credentialAccount na pn = na ++ "_" ++ pn := by
        simp [credentialAccount, hn]
      rw [hacc] at hmem
      exact getOrSetPassword_events (na ++ "_" ++ pn) r ks0 pv e hmem
    rcases he with (h | h) | h
    · exact Or.inl (hstep "bitwarden_client_id" ks pr1 h)
    · exact Or.inr (Or.inl (hstep "bitwarden_client_secret" _ pr2 h))
    · exact Or.inr (Or.inr (hstep "bitwarden_password" _ pr3 h))
  · have hval := getOrSetPassword_value ("bitwarden_client_id" ++ "_" ++ pn) r ks pr1
    have hred : (backupVaultCredentials c pn r ks pr1 pr2 pr3).1.1 =
        (getOrSetPassword ("bitwarden_client_id" ++ "_" ++ pn) r ks pr1).1 := by
      show (getCredential "" "bitwarden_client_id" pn r ks pr1).1 = _
      unfold getCredential
      simp only [ne_eq, not_true_eq_false, if_false]
      have hacc : credentialAccount "bitwarden_client_id" pn =
          "bitwarden_client_id" ++ "_" ++ pn := by
        simp [credentialAccount, hn]
      rw [hacc]
    rw [hred]
    exact hval

/-- Witness for C8: two different flag settings yield the identical batch-mode
resolution result for a concrete profile. -/
theorem backupVault_ignores_credential_flags_witness :
    backupVaultCredentials (CliFlags.mk "flag-id" "flag-secret" "flag-pw")
        "work" false [] "p1" "p2" "p3" =
      backupVaultCredentials (CliFlags.mk "" "" "") "work" false [] "p1" "p2" "p3" ∧
    (backupVaultCredentials (CliFlags.mk "flag-id" "flag-secret" "flag-pw")
        "work" false [] "p1" "p2" "p3").1.1 =
      (getCredential "" "bitwarden_client_id" "work" false [] "p1").1 :=
  ⟨(backupVault_ignores_credential_flags
      (CliFlags.mk "flag-id" "flag-secret" "flag-pw") (CliFlags.mk "" "" "")
      "work" false [] "p1" "p2" "p3" (by decide)).1,
   (backupVault_ignores_credential_flags
      (CliFlags.mk "flag-id" "flag-secret" "flag-pw") (CliFlags.mk "" "" "")
      "work" false [] "p1" "p2" "p3" (by decide)).2.1⟩

/-- Filesystem model for the directory handling: the set of existing
directories as a list of (absolute path, permission mode) pairs. -/
def dirIn (fs : List (String × Nat)) (p : String) : Bool :=
  fs.any (fun e => e.1 == p)

/-- Model of Go's os.MkdirAll: create the directory with the given mode when
it does not exist (idempotent on existing directories; never an error for the
paths this program builds). -/
def goMkdirAll (fs : List (String × Nat)) (p : String) (mode : Nat) :
    List (String × Nat) :=
  if dirIn fs p then fs else fs ++ [(p, mode)]

/-- Go's backupDir[0] == a tilde test (bw_backup.go line 267). -/
def tildeHead (s : String) : Bool :=
  match s.data with
  | [] => false
  | c :: _ => c == '~'

/-- Go's backupDir[1:] byte slice. -/
def strTail (s : String) : String := ⟨s.data.drop 1⟩

/-- Directory resolution of backupVault (bw_backup.go lines 265-279): expand a
leading tilde against the home directory via filepath.Join, then resolve to an
absolute path.  join and abs stand for Go's filepath.Join and filepath.Abs,
which are external library functions and are kept abstract. -/
def backupVaultResolveDir (join : String → String → String)
    (abs : String → String) (home d : String) : String :=
  let d1 := if tildeHead d then join home (strTail d) else d
  abs d1

/-- Directory phase of backupVault (bw_backup.go lines 265-284): resolve the
profile's backup_dir and create it with mode 0755 when missing; this phase
cannot fail in the model (MkdirAll replaces single mode's existence check). -/
def backupVaultEnsureDir (join : String → String → String)
    (abs : String → String) (home : String) (fs : List (String × Nat))
    (d : String) : String × List (String × Nat) :=
  let a := backupVaultResolveDir join abs home d
  (a, goMkdirAll fs a 0o755)

/-- Directory check of runSingleBackup (bw_backup.go lines 99-108): resolve
the backup-dir flag to an absolute path and fail when it does not exist. -/
def singleBackupDirCheck (abs : String → String) (fs : List (String × Nat))
    (d : String) : Except String String :=
  let a := abs d
  if dirIn fs a then Except.ok a
  else Except.error ("backup directory does not exist: " ++ a)

/-- Claim C9: in batch mode a missing backup directory is not an error —
backupVault expands a leading tilde of the profile's backup_dir, resolves it
to an absolute path, and creates the missing directory with permissions 0755
before invoking the container, after which the directory exists; single mode,
in contrast, fails with a missing-directory error for any non-existing backup
directory. -/
theorem backupVault_creates_missing_dir (join : String → String → String)
    (abs : String → String) (home : String) (fs : List (String × Nat))
    (d : String)
    (hmiss : dirIn fs (backupVaultResolveDir join abs home d) = false) :
    (backupVaultEnsureDir join abs home fs d).2 =
      fs ++ [(backupVaultResolveDir join abs home d, 0o755)] ∧
    dirIn (backupVaultEnsureDir join abs home fs d).2
      (backupVaultResolveDir join abs home d) = true ∧
    (tildeHead d = true →
      backupVaultResolveDir join abs home d = abs (join home (strTail d))) ∧
    (∀ d2 : String, dirIn fs (abs d2) = false →
      singleBackupDirCheck abs fs d2 =
        Except.error ("backup directory does not exist: " ++ abs d2)) := by
  refine ⟨?_, ?_, ?_, ?_⟩
  · show goMkdirAll fs (backupVaultResolveDir join abs home d) 0o755 = _
    unfold goMkdirAll
    rw [if_neg (by rw [hmiss]; exact Bool.false_ne_true)]
  · show dirIn (goMkdirAll fs (backupVaultResolveDir join abs home d) 0o755) _ = true
    unfold goMkdirAll
    rw [if_neg (by rw [hmiss]; exact Bool.false_ne_true)]
    unfold dirIn
    rw [List.any_append]
    simp
  · intro ht
    unfold backupVaultResolveDir
    rw [if_pos ht]
  · intro d2 h2
    unfold singleBackupDirCheck
    rw [if_neg (by rw [h2]; exact Bool.false_ne_true)]

/-- Helper for the C9 witness: a concrete stand-in for filepath.Join. -/
def joinW (a b : String) : String := a ++ "/" ++ b

/-- Helper for the C9 witness: a concrete stand-in for filepath.Abs. -/
def absW (s : String) : String := s

/-- Witness for C9 at a concrete tilde-prefixed profile directory missing from
an empty filesystem. -/
theorem backupVault_creates_missing_dir_witness :
    (backupVaultEnsureDir joinW absW "/home/u" [] "~x").2 =
      [] ++ [(backupVaultResolveDir joinW absW "/home/u" "~x", 0o755)] ∧
    dirIn (backupVaultEnsureDir joinW absW "/home/u" [] "~x").2
      (backupVaultResolveDir joinW absW "/home/u" "~x") = true ∧
    backupVaultResolveDir joinW absW "/home/u" "~x" =
      absW (joinW "/home/u" (strTail "~x")) :=
  ⟨(backupVault_creates_missing_dir joinW absW "/home/u" [] "~x" (by decide)).1,
   (backupVault_creates_missing_dir joinW absW "/home/u" [] "~x" (by decide)).2.1,
   (backupVault_creates_missing_dir joinW absW "/home/u" [] "~x"
      (by decide)).2.2.1 (by decide)⟩

/-- ASCII apostrophe (character 39), as used by the Go format strings of the
batch error messages. -/
def quoteChar : String := String.mk [Char.ofNat 39]

/-- Failure message for a personal-vault job (bw_backup.go line 212). -/
def personalFailMsg (pname e : String) : String :=
  "Profile " ++ quoteChar ++ pname ++ quoteChar ++ " personal vault: " ++ e

/-- Failure message for an organization job (bw_backup.go line 223). -/
def orgFailMsg (pname org e : String) : String :=
  "Profile " ++ quoteChar ++ pname ++ quoteChar ++ " org " ++ quoteChar ++
    org ++ quoteChar ++ ": " ++ e

/-- A backup profile from the YAML batch configuration (bw_backup.go). -/
structure BackupProfile where
  name : String
  backupDir : String
  organizations : List String
deriving DecidableEq, Repr

/-- Inner loop of runBatchBackup over a profile's organizations (bw_backup.go
lines 220-229), parameterized by the outcome of each vault job: none means
the job succeeded, some e that it failed with message e. -/
def runBatchOrgLoop (outcome : BackupProfile → Option String → Option String)
    (p : BackupProfile) : List String → Nat → List String → Nat × List String
  | [], succ, errs => (succ, errs)
  | o :: os, succ, errs =>
    match outcome p (some o) with
    | some e => runBatchOrgLoop outcome p os succ (errs ++ [orgFailMsg p.name o e])
    | none => runBatchOrgLoop outcome p os (succ + 1) errs

/-- Outer loop of runBatchBackup over the profiles (bw_backup.go lines
207-232): personal vault first, then each organization, accumulating the
success count and the failure messages. -/
def runBatchProfileLoop (outcome : BackupProfile → Option String → Option String) :
    List BackupProfile → Nat → List String → Nat × List String
  | [], succ, errs => (succ, errs)
  | p :: ps, succ, errs =>
    let r1 := match outcome p none with
      | some e => (succ, errs ++ [personalFailMsg p.name e])
      | none => (succ + 1, errs)
    let r2 := runBatchOrgLoop outcome p p.organizations r1.1 r1.2
    runBatchProfileLoop outcome ps r2.1 r2.2

/-- runBatchBackup (bw_backup.go lines 196-244), after the configuration has
been read: run every job of every profile, then report the aggregate error
carrying the failure count exactly when failures were recorded. -/
def runBatchBackup (profiles : List BackupProfile)
    (outcome : BackupProfile → Option String → Option String) :
    Nat × List String × Option String :=
  let r := runBatchProfileLoop outcome profiles 0 []
  (r.1, r.2,
    if r.2.length = 0 then none
    else some ("batch backup completed with " ++ toString r.2.length ++
      " error(s)"))

/-- The jobs a profile gives rise to: its primary (personal) vault, then one
job per listed organization. -/
def profileJobs (p : BackupProfile) : List (BackupProfile × Option String) :=
  (p, none) :: p.organizations.map (fun o => (p, some o))

/-- All jobs of a batch, in execution order. -/
def batchJobs (profiles : List BackupProfile) :
    List (BackupProfile × Option String) :=
  profiles.flatMap profileJobs

/-- The failure message a failing job is recorded with: profile name, the
organization identifier when present, and the underlying error message. -/
def jobFailMsg (p : BackupProfile) (o : Option String) : String → String :=
  match o with
  | none => personalFailMsg p.name
  | some org => orgFailMsg p.name org

/-- The failure records of a batch: one formatted message per failing job, in
execution order. -/
def batchFailures (profiles : List BackupProfile)
    (outcome : BackupProfile → Option String → Option String) : List String :=
  (batchJobs profiles).filterMap
    (fun j => (outcome j.1 j.2).map (jobFailMsg j.1 j.2))

theorem runBatchOrgLoop_spec (outcome : BackupProfile → Option String → Option String)
    (p : BackupProfile) (os : List String) :
    ∀ (succ : Nat) (errs : List String),
      runBatchOrgLoop outcome p os succ errs =
        (succ + (os.filter (fun o => (outcome p (some o)).isNone)).length,
         errs ++ os.filterMap (fun o => (outcome p (some o)).map (orgFailMsg p.name o))) := by
  induction os with
  | nil => intro succ errs; simp [runBatchOrgLoop]
  | cons o os ih =>
    intro succ errs
    cases h : outcome p (some o) with
    | some e =>
      simp only [runBatchOrgLoop, h]
      rw [ih]
      simp [h]
    | none =>
      simp only [runBatchOrgLoop, h]
      rw [ih]
      simp only [List.filter_cons, h, Option.isNone_none, if_true,
        List.length_cons, List.filterMap_cons, Option.map_none', Prod.mk.injEq]
      exact ⟨by omega, trivial⟩

theorem profile_filter_decomp (outcome : BackupProfile → Option String → Option String)
    (p : BackupProfile) :
    ((profileJobs p).filter (fun j => (outcome j.1 j.2).isNone)).length =
      (match outcome p none with | some _ => 0 | none => 1) +
      (p.organizations.filter (fun o => (outcome p (some o)).isNone)).length := by
  unfold profileJobs
  rw [List.filter_cons]
  cases h : outcome p none with
  | some e => simp [h, List.filter_map, Function.comp_def]
  | none => simp [h, List.filter_map, Function.comp_def]; omega

theorem profile_failures_decomp (outcome : BackupProfile → Option String → Option String)
    (p : BackupProfile) :
    (profileJobs p).filterMap (fun j => (outcome j.1 j.2).map (jobFailMsg j.1 j.2)) =
      (match outcome p none with
        | some e => [personalFailMsg p.name e]
        | none => []) ++
      p.organizations.filterMap
        (fun o => (outcome p (some o)).map (orgFailMsg p.name o)) := by
  unfold profileJobs
  rw [List.filterMap_cons]
  cases h : outcome p none with
  | some e => simp [h, jobFailMsg, List.filterMap_map, Function.comp_def]
  | none => simp [h, jobFailMsg, List.filterMap_map, Function.comp_def]

theorem runBatchProfileLoop_spec
    (outcome : BackupProfile → Option String → Option String)
    (ps : List BackupProfile) :
    ∀ (succ : Nat) (errs : List String),
      runBatchProfileLoop outcome ps succ errs =
        (succ + ((batchJobs ps).filter (fun j => (outcome j.1 j.2).isNone)).length,
         errs ++ batchFailures ps outcome) := by
  induction ps with
  | nil => intro succ errs; simp [runBatchProfileLoop, batchJobs, batchFailures]
  | cons p ps ih =>
    intro succ errs
    have hjobs : batchJobs (p :: ps) = profileJobs p ++ batchJobs ps := by
      simp [batchJobs]
    cases h : outcome p none with
    | some e =>
      simp only [runBatchProfileLoop, h]
      rw [runBatchOrgLoop_spec, ih]
      simp only [batchFailures, hjobs, List.filter_append, List.length_append,
        List.filterMap_append, profile_filter_decomp, profile_failures_decomp, h,
        Prod.mk.injEq]
      exact ⟨by omega, by simp [List.append_assoc]⟩
    | none =>
      simp only [runBatchProfileLoop, h]
      rw [runBatchOrgLoop_spec, ih]
      simp only [batchFailures, hjobs, List.filter_append, List.length_append,
        List.filterMap_append, profile_filter_decomp, profile_failures_decomp, h,
        Prod.mk.injEq]
      exact ⟨by omega, by simp [List.append_assoc]⟩

theorem filterMap_map_length {α : Type} (l : List α) (f : α → Option String)
    (g : α → String → String) :
    (l.filterMap (fun x => (f x).map (g x))).length =
      (l.filter (fun x => (f x).isSome)).length := by
  induction l with
  | nil => rfl
  | cons a as ih =>
    cases h : f a with
    | some v => simp [h, ih]
    | none => simp [h, ih]

theorem filter_isNone_isSome_split {α : Type} (l : List α) (f : α → Option String) :
    (l.filter (fun x => (f x).isNone)).length +
      (l.filter (fun x => (f x).isSome)).length = l.length := by
  induction l with
  | nil => rfl
  | cons a as ih =>
    cases h : f a with
    | some v => simp [h]; omega
    | none => simp [h]; omega

/-- Claim C4: runBatchBackup attempts every job of every profile (the
profile's primary vault plus one job per organization) regardless of earlier
failures; its recorded failures are exactly the formatted messages — profile
name, organization identifier when present, underlying error — of the failing
jobs in execution order (so with K failing jobs it records exactly K
failures); the success count is total - K; and the aggregate error mentioning
the failure count is returned exactly when K > 0. -/
theorem runBatchBackup_accounting (profiles : List BackupProfile)
    (outcome : BackupProfile → Option String → Option String) :
    (runBatchBackup profiles outcome).1 + (batchFailures profiles outcome).length =
      (batchJobs profiles).length ∧
    (runBatchBackup profiles outcome).1 =
      (batchJobs profiles).length - (batchFailures profiles outcome).length ∧
    (runBatchBackup profiles outcome).2.1 = batchFailures profiles outcome ∧
    (runBatchBackup profiles outcome).2.2 =
      (if (batchFailures profiles outcome).length = 0 then none
       else some ("batch backup completed with " ++
         toString (batchFailures profiles outcome).length ++ " error(s)")) := by
  have hs : runBatchProfileLoop outcome profiles 0 [] =
      (((batchJobs profiles).filter (fun j => (outcome j.1 j.2).isNone)).length,
        batchFailures profiles outcome) := by
    rw [runBatchProfileLoop_spec]
    simp
  have hflen : (batchFailures profiles outcome).length =
      ((batchJobs profiles).filter (fun j => (outcome j.1 j.2).isSome)).length := by
    unfold batchFailures
    exact filterMap_map_length _ _ _
  have hsplit := filter_isNone_isSome_split (batchJobs profiles)
    (fun j => outcome j.1 j.2)
  unfold runBatchBackup
  rw [hs]
  dsimp only
  refine ⟨?_, ?_, rfl, rfl⟩
  · rw [hflen]
    omega
  · rw [hflen]
    omega
